import Mathlib

/-!
Verification of the Grasphoffer RAG request pipeline.

Shallow embedding of the backend embedding service (cosine similarity,
top-k retrieval, sentence-based chunking) and of the request router
(job store, submit / status / result handlers, orchestrator state
machine).  JS strings handled by the text-processing service are
modelled as `List Char`; floating-point numbers are modelled as
rationals (every float value is a rational) with `Math.sqrt` kept as an
abstract function parameter `fsqrt`.
-/

namespace Grasphoffer

/-! ## Embedding service: sentence splitting (embeddingService.splitText) -/

/-- Characters matched by the sentence-separator regex class `[.!?]`. -/
def isSentenceSep (c : Char) : Bool :=
  c == '.' || c == '!' || c == '?'

/-- Model of `text.split(/[.!?]+/)`: split on each separator character.
Runs of separators yield empty pieces that the trim filter below removes,
so this agrees with the regex-run split after filtering. -/
def splitSeps : List Char → List (List Char)
  | [] => [[]]
  | c :: t =>
    if isSentenceSep c then [] :: splitSeps t
    else
      match splitSeps t with
      | [] => [[c]]
      | h :: r => (c :: h) :: r

/-- Model of `String.prototype.trim`: strip whitespace from both ends. -/
def jsTrim (s : List Char) : List Char :=
  ((s.dropWhile Char.isWhitespace).reverse.dropWhile Char.isWhitespace).reverse

/-- The sentence list of `splitText`:
`text.split(/[.!?]+/).filter(s => s.trim().length > 0)`. -/
def sentencesOf (text : List Char) : List (List Char) :=
  (splitSeps text).filter (fun s => 0 < (jsTrim s).length)

/-- A chunk produced by `splitText`; it doubles as the document object
consumed by `findSimilar`, whose `doc.embedding` cache is the lazily
populated `embedding` field. -/
structure Chunk where
  text : List Char
  index : Nat
  startChar : Int
  len : Nat
  embedding : Option (List ℚ)
deriving DecidableEq

/-- Model of `text.indexOf(sub)` (position of first occurrence). -/
def indexOfSubAux (sub : List Char) : List Char → Option Nat
  | [] => if sub.isEmpty then some 0 else none
  | c :: t => if sub.isPrefixOf (c :: t) then some 0 else (indexOfSubAux sub t).map (· + 1)

/-- Model of `text.indexOf(sub)`, `-1` when absent. -/
def indexOfSub (text sub : List Char) : Int :=
  match indexOfSubAux sub text with
  | some n => (n : Int)
  | none => -1

/-- Model of `text.lastIndexOf(sub)`, `-1` when absent. -/
def lastIndexOfSub (text sub : List Char) : Int :=
  match ((List.range (text.length + 1)).filter
      (fun i => sub.isPrefixOf (text.drop i))).getLast? with
  | some n => (n : Int)
  | none => -1

/-- The chunk record pushed inside the loop of `splitText`
(`metadata.startChar` uses `text.indexOf`). -/
def mkChunk (text cc : List Char) (idx : Nat) : Chunk :=
  { text := cc ++ ['.'], index := idx, startChar := indexOfSub text cc,
    len := cc.length, embedding := none }

/-- The final chunk record pushed after the loop of `splitText`
(`metadata.startChar` uses `text.lastIndexOf`). -/
def mkLastChunk (text cc : List Char) (idx : Nat) : Chunk :=
  { text := cc ++ ['.'], index := idx, startChar := lastIndexOfSub text cc,
    len := cc.length, embedding := none }

/-- The sentence-packing loop of `splitText`, with state
`(remaining sentences, currentChunk, chunkIndex)`. -/
def splitLoop (text : List Char) (chunkSize overlap : Nat) :
    List (List Char) → List Char → Nat → List Chunk
  | [], cc, idx => if cc.isEmpty then [] else [mkLastChunk text cc idx]
  | s :: rest, cc, idx =>
    let t := jsTrim s
    if cc.length + t.length + 1 ≤ chunkSize then
      splitLoop text chunkSize overlap rest
        (if cc.isEmpty then t else cc ++ '.' :: ' ' :: t) idx
    else if cc.isEmpty then
      splitLoop text chunkSize overlap rest t idx
    else
      mkChunk text cc idx ::
        splitLoop text chunkSize overlap rest
          (if 0 < overlap ∧ overlap < cc.length then
            (cc.drop (cc.length - overlap)) ++ '.' :: ' ' :: t
          else t)
          (idx + 1)

/-- Model of `embeddingService.splitText(text, chunkSize, overlap)`. -/
def splitText (text : List Char) (chunkSize overlap : Nat) : List Chunk :=
  splitLoop text chunkSize overlap (sentencesOf text) [] 0

/-! ## Embedding service: cosine similarity and top-k retrieval -/

/-- Model of `embeddingService.cosineSimilarity(vecA, vecB)`.  `fsqrt`
stands for `Math.sqrt`; propositions about it are taken as hypotheses
where needed. -/
def cosineSimilarity (fsqrt : ℚ → ℚ) (vecA vecB : List ℚ) : Except String ℚ :=
  if vecA.length ≠ vecB.length then .error "Vectors must have the same length"
  else
    let dotProduct := (List.zipWith (· * ·) vecA vecB).sum
    let normA := fsqrt ((vecA.map fun x => x * x).sum)
    let normB := fsqrt ((vecB.map fun x => x * x).sum)
    if normA = 0 ∨ normB = 0 then .ok 0
    else .ok (dotProduct / (normA * normB))

/-- One entry of the `similarities` array built by `findSimilar`. -/
structure SimResult where
  index : Nat
  score : ℚ
  document : Chunk
deriving DecidableEq

/-- The ordering contract of the ranked list: strictly better score
first, and on score ties the original chunk order (smaller `index`)
first — the observable behaviour of a stable descending sort. -/
def simOrder (a b : SimResult) : Prop :=
  b.score ≤ a.score ∧ (a.score = b.score → a.index < b.index)

/-- Sequencing of the per-document similarity computations: the JS loop
throws at the first failing element. -/
def exceptList : List (Except String ℚ) → Except String (List ℚ)
  | [] => .ok []
  | .error e :: _ => .error e
  | .ok q :: rest => (exceptList rest).map (q :: ·)

/-- The embedding used for a document: the cached `doc.embedding` when
present (a stored array is always truthy in JS), else a fresh one. -/
def docEmbedding (embed : List Char → List ℚ) (d : Chunk) : List ℚ :=
  d.embedding.getD (embed d.text)

/-- The in-place mutation `doc.embedding = embedding` performed by
`findSimilar` to memoize embeddings. -/
def cacheEmbedding (embed : List Char → List ℚ) (d : Chunk) : Chunk :=
  { d with embedding := some (docEmbedding embed d) }

/-- Insertion step of the stable descending sort; the comparator
`(a, b) => b.score - a.score` puts `a` first exactly when
`b.score ≤ a.score`, and keeps original order on ties. -/
def insertScore (x : SimResult) : List SimResult → List SimResult
  | [] => [x]
  | y :: ys => if y.score ≤ x.score then x :: y :: ys else y :: insertScore x ys

/-- Stable sort by descending score, modelling
`similarities.sort((a, b) => b.score - a.score)` (ECMAScript sort is
stable). -/
def sortByScoreDesc : List SimResult → List SimResult
  | [] => []
  | x :: xs => insertScore x (sortByScoreDesc xs)

/-- Model of `Array.prototype.slice(0, k)` including the JS semantics of
a negative end index (counted from the end of the array). -/
def jsSliceTo (k : Int) (l : List α) : List α :=
  if k < 0 then l.take ((l.length : Int) + k).toNat else l.take k.toNat

/-- Model of `embeddingService.findSimilar(query, documents, k)`.
Returns the top results together with the (mutated) document array whose
`embedding` caches have been populated; the `document` field of each
result references the mutated objects, as in the source. -/
def findSimilar (fsqrt : ℚ → ℚ) (embed : List Char → List ℚ)
    (query : List Char) (documents : List Chunk) (k : Int) :
    Except String (List SimResult × List Chunk) :=
  match exceptList ((documents.map (docEmbedding embed)).map
      (cosineSimilarity fsqrt (embed query))) with
  | .error _ => .error "Failed to find similar documents"
  | .ok scores =>
    .ok (jsSliceTo k (sortByScoreDesc
        ((scores.zip (documents.map (cacheEmbedding embed))).enum.map
          fun p => { index := p.1, score := p.2.1, document := p.2.2 })),
      documents.map (cacheEmbedding embed))

/-- Model of `embeddingService.getRelevantContext(context, query, k)`:
chunk with fixed constants 1000/200, return the corpus unchanged when
there are at most `k` chunks, join the top-k chunk texts with blank
lines otherwise, and fall back to the full corpus on any error. -/
def getRelevantContext (fsqrt : ℚ → ℚ) (embed : List Char → List ℚ)
    (context query : List Char) (k : Int) : List Char :=
  let chunks := splitText context 1000 200
  if (chunks.length : Int) ≤ k then context
  else
    match findSimilar fsqrt embed query chunks k with
    | .ok (similarChunks, _) =>
      List.intercalate ('\n' :: '\n' :: [])
        (similarChunks.map fun r => r.document.text)
    | .error _ => context

/-! ## Request router: job store, handlers, orchestrator state machine -/

/-- The object stored in `request.result` by the orchestrator:
`{ ...result, processingTime }` where `result` came from
`ragService.generateResponse`.  `citations` and `themes` may be absent
from the upstream result, hence optional. -/
structure StoredResult where
  answer : String
  citations : Option (List String)
  themes : Option String
  processingTime : Nat
deriving DecidableEq

/-- The (abstract) value returned by `ragService.generateResponse`. -/
structure GenResult where
  answer : String
  citations : Option (List String)
  themes : Option String
deriving DecidableEq

/-- One entry of the in-memory `requestStore`.  `evictionTimer` models
the `setTimeout` cleanup delay registered for the job, when any. -/
structure Job where
  status : String
  question : String
  context : String
  weakConcepts : List String
  createdAt : Nat
  service : String
  progress : Option Nat
  message : Option String
  result : Option StoredResult
  error : Option String
  evictionTimer : Option Nat
deriving DecidableEq

/-- The record created by `POST /thehopper/ask` via `requestStore.set`. -/
def mkJob (question context : String) (weakConcepts : List String) (now : Nat) : Job :=
  { status := "processing", question := question, context := context,
    weakConcepts := weakConcepts, createdAt := now, service := "thehopper",
    progress := none, message := none, result := none, error := none,
    evictionTimer := none }

/-- First mutation of `processRAGRequest` (progress 10, stage message). -/
def stepStart (j : Job) : Job :=
  { j with
    status := "processing", progress := some 10,
    message := some "Processing context..." }

/-- Mutation after `contextProcessor.processContext` returned (progress 30). -/
def stepEmbedPhase (j : Job) : Job :=
  { j with progress := some 30, message := some "Generating embeddings..." }

/-- Success mutation of `processRAGRequest`: result stored, job completed,
and the one-hour cleanup `setTimeout` (60 * 60 * 1000 ms) registered. -/
def stepComplete (j : Job) (r : GenResult) (elapsed : Nat) : Job :=
  { j with
    progress := some 100, status := "completed",
    message := some "Processing complete",
    result := some ⟨r.answer, r.citations, r.themes, elapsed⟩,
    evictionTimer := some 3600000 }

/-- Catch-branch mutation of `processRAGRequest`: the thrown message is
recorded and the status set to the string used by the source. -/
def stepFail (j : Job) (msg : String) : Job :=
  { j with
    status := "error", error := some msg,
    message := some "Processing failed" }

/-- Job states reachable through the orchestrator: creation, the two
in-flight stages, completion, and failure at either of the two await
points (`processContext`, `generateResponse`) that can throw. -/
inductive ReachableJob : Job → Prop
  | created (q c : String) (w : List String) (t : Nat) :
      ReachableJob (mkJob q c w t)
  | started (q c : String) (w : List String) (t : Nat) :
      ReachableJob (stepStart (mkJob q c w t))
  | embedding (q c : String) (w : List String) (t : Nat) :
      ReachableJob (stepEmbedPhase (stepStart (mkJob q c w t)))
  | completed (q c : String) (w : List String) (t : Nat) (r : GenResult) (elapsed : Nat) :
      ReachableJob (stepComplete (stepEmbedPhase (stepStart (mkJob q c w t))) r elapsed)
  | failedAtContext (q c : String) (w : List String) (t : Nat) (m : String) :
      ReachableJob (stepFail (stepStart (mkJob q c w t)) m)
  | failedAtGenerate (q c : String) (w : List String) (t : Nat) (m : String) :
      ReachableJob (stepFail (stepEmbedPhase (stepStart (mkJob q c w t))) m)

/-- The in-memory request store (`new Map()`), keyed by request id. -/
abbrev Store := List (String × Job)

/-- A JSON response of the router, together with its HTTP status code.
Fields not present in a given response body are `none`. -/
structure ApiResponse where
  statusCode : Nat
  success : Bool
  error : Option String := none
  status : Option String := none
  progress : Option Nat := none
  message : Option String := none
  requestId : Option String := none
  answer : Option String := none
  citations : Option (List String) := none
  themes : Option String := none
  processingTime : Option Nat := none
deriving DecidableEq

/-- JS truthiness of an optional string field: absent and empty are falsy. -/
def jsTruthy : Option String → Bool
  | none => false
  | some s => !(s == "")

/-- Request body of `POST /thehopper/ask`. -/
structure AskBody where
  question : Option String
  context : Option String
  weakConcepts : Option (List String)
deriving DecidableEq

/-- Model of the `POST /thehopper/ask` handler: validation, job creation
(`freshId` stands for the generated uuid), and the submission response.
The asynchronous `processRAGRequest` mutations are modelled by
`ReachableJob`. -/
def askHandler (store : Store) (body : AskBody) (freshId : String) (now : Nat) :
    ApiResponse × Store :=
  if !jsTruthy body.question || !jsTruthy body.context then
    ({ statusCode := 400, success := false,
       error := some "Question and context are required" }, store)
  else
    ({ statusCode := 200, success := true, requestId := some freshId,
       message := some "Question submitted for processing" },
     (freshId, mkJob (body.question.getD "") (body.context.getD "")
        ((body.weakConcepts).getD []) now) :: store)

/-- Model of the `GET /:service/status/:requestId` handler. -/
def statusHandler (store : Store) (service requestId : String) : ApiResponse :=
  match store.lookup requestId with
  | none => { statusCode := 404, success := false, error := some "Request not found" }
  | some request =>
    if request.service ≠ service then
      { statusCode := 400, success := false, error := some "Service mismatch" }
    else
      { statusCode := 200, success := true, status := some request.status,
        progress := some (request.progress.getD 0),
        message := some (request.message.getD "") }

/-- Model of the `GET /:service/result/:requestId` handler.  Accessing
`request.result` on a non-completed record cannot happen on the
completed branch; a missing result there would raise and be answered by
the catch-all 500, modelled by the final case. -/
def resultHandler (store : Store) (service requestId : String) : ApiResponse :=
  match store.lookup requestId with
  | none => { statusCode := 404, success := false, error := some "Request not found" }
  | some request =>
    if request.service ≠ service then
      { statusCode := 400, success := false, error := some "Service mismatch" }
    else if request.status ≠ "completed" then
      { statusCode := 202, success := false,
        error := some "Request not completed yet", status := some request.status }
    else
      match request.result with
      | some r =>
        { statusCode := 200, success := true, answer := some r.answer,
          citations := some (r.citations.getD []),
          themes := some (r.themes.getD ""),
          processingTime := some r.processingTime }
      | none =>
        { statusCode := 500, success := false,
          error := some "Failed to get request result" }

/-- Whether a response body mentions a given string in any of its string
fields (equality or substring occurrence). -/
def respMentions (r : ApiResponse) (m : String) : Bool :=
  let inStr := fun (s : String) => (indexOfSubAux m.toList s.toList).isSome
  let inOpt := fun (o : Option String) => (o.map inStr).getD false
  inOpt r.error || inOpt r.status || inOpt r.message || inOpt r.requestId ||
    inOpt r.answer || inOpt r.themes || (r.citations.getD []).any inStr

/-- A concrete job whose processing failed at the context stage. -/
def sampleFailedJob : Job :=
  stepFail (stepStart (mkJob "q" "ctx" [] 0)) "boom"

/-- A concrete job whose processing failed at the language-model stage. -/
def sampleLLMFailedJob : Job :=
  stepFail (stepEmbedPhase (stepStart (mkJob "q" "ctx" [] 0))) "LLM down"

/-! ## Theorems -/

/-- C9: for every pair of equal-length vectors of which at least one has
zero norm (the square root of its sum of squares is zero),
`cosineSimilarity` returns 0 through the zero-norm guard; the division
branch is not taken. -/
theorem cosineSimilarity_zero_norm_zero (fsqrt : ℚ → ℚ) (vecA vecB : List ℚ)
    (hlen : vecA.length = vecB.length)
    (hzero : fsqrt ((vecA.map fun x => x * x).sum) = 0 ∨
      fsqrt ((vecB.map fun x => x * x).sum) = 0) :
    cosineSimilarity fsqrt vecA vecB = .ok 0 := by
  simp [cosineSimilarity, hlen, hzero]

/-- Witness for C9 at a concrete input: the all-zero vector has zero norm
against any equal-length vector. -/
theorem cosineSimilarity_zero_norm_zero_witness :
    cosineSimilarity id [(0 : ℚ), 0] [(3 : ℚ), 4] = .ok 0 :=
  cosineSimilarity_zero_norm_zero id [(0 : ℚ), 0] [(3 : ℚ), 4] rfl (Or.inl (by norm_num))

/-- C6: whenever the fixed 1000/200 chunking of the corpus yields at most
`k` chunks, `getRelevantContext` returns the corpus unchanged,
skipping ranking entirely. -/
theorem getRelevantContext_few_chunks_id (fsqrt : ℚ → ℚ)
    (embed : List Char → List ℚ) (context query : List Char) (k : Int)
    (h : ((splitText context 1000 200).length : Int) ≤ k) :
    getRelevantContext fsqrt embed context query k = context := by
  simp [getRelevantContext, h]

/-- Witness for C6 at a concrete corpus with a single chunk and k = 4. -/
theorem getRelevantContext_few_chunks_id_witness :
    getRelevantContext id (fun _ => [(0 : ℚ)]) ('H' :: 'i' :: []) ('q' :: []) 4 =
      'H' :: 'i' :: [] :=
  getRelevantContext_few_chunks_id id (fun _ => [(0 : ℚ)]) ('H' :: 'i' :: [])
    ('q' :: []) 4 (by decide)

/-- C8: a submission with `question` or `context` missing is answered
with HTTP 400, the job store is unchanged, and a status lookup of any
identifier absent from the store still returns 404. -/
theorem ask_missing_field_400_no_job (store : Store) (body : AskBody)
    (freshId : String) (now : Nat)
    (h : body.question = none ∨ body.context = none) :
    (askHandler store body freshId now).1.statusCode = 400 ∧
    (askHandler store body freshId now).1.success = false ∧
    (askHandler store body freshId now).2 = store ∧
    (∀ rid service, (askHandler store body freshId now).2.lookup rid = none →
      (statusHandler (askHandler store body freshId now).2 service rid).statusCode = 404 ∧
      (statusHandler (askHandler store body freshId now).2 service rid).success = false) := by
  have hcond : (!jsTruthy body.question || !jsTruthy body.context) = true := by
    rcases h with h | h <;> simp [h, jsTruthy]
  refine ⟨by simp [askHandler, hcond], by simp [askHandler, hcond],
    by simp [askHandler, hcond], ?_⟩
  intro rid service hl
  simp only [askHandler, hcond, if_true] at hl ⊢
  constructor <;> simp [statusHandler, hl]

/-- Witness for C8: submitting with `context` omitted against the empty
store. -/
theorem ask_missing_field_400_no_job_witness :
    (askHandler [] ⟨some "What", none, none⟩ "rid1" 0).1.statusCode = 400 ∧
    (askHandler [] ⟨some "What", none, none⟩ "rid1" 0).1.success = false ∧
    (askHandler [] ⟨some "What", none, none⟩ "rid1" 0).2 = [] ∧
    (∀ rid service, (askHandler [] ⟨some "What", none, none⟩ "rid1" 0).2.lookup rid = none →
      (statusHandler (askHandler [] ⟨some "What", none, none⟩ "rid1" 0).2 service rid).statusCode = 404 ∧
      (statusHandler (askHandler [] ⟨some "What", none, none⟩ "rid1" 0).2 service rid).success = false) :=
  ask_missing_field_400_no_job [] ⟨some "What", none, none⟩ "rid1" 0 (Or.inr rfl)

/-- C10: when the request id exists but the service path segment differs
from the recorded service, both status and result lookups answer
HTTP 400 with the service-mismatch error and expose no job data. -/
theorem lookup_service_mismatch_400 (store : Store) (service rid : String) (j : Job)
    (hlook : store.lookup rid = some j) (hserv : j.service ≠ service) :
    statusHandler store service rid =
      { statusCode := 400, success := false, error := some "Service mismatch" } ∧
    resultHandler store service rid =
      { statusCode := 400, success := false, error := some "Service mismatch" } := by
  constructor
  · simp [statusHandler, hlook, hserv]
  · simp [resultHandler, hlook, hserv]

/-- Witness for C10: a stored job created under `thehopper`, queried
under another service name. -/
theorem lookup_service_mismatch_400_witness :
    statusHandler [("r1", mkJob "q" "c" [] 0)] "tts" "r1" =
      { statusCode := 400, success := false, error := some "Service mismatch" } ∧
    resultHandler [("r1", mkJob "q" "c" [] 0)] "tts" "r1" =
      { statusCode := 400, success := false, error := some "Service mismatch" } :=
  lookup_service_mismatch_400 [("r1", mkJob "q" "c" [] 0)] "tts" "r1"
    (mkJob "q" "c" [] 0) (by decide) (by decide)

/-- C1: a reachable job whose processing threw carries the thrown message
in `error` and retains no result, but its status is the string `error`,
not the `failed` expected by the specification and by the polling client
in the repository. -/
theorem failure_status_is_error_not_failed :
    ReachableJob sampleFailedJob ∧ sampleFailedJob.status = "error" ∧
    sampleFailedJob.status ≠ "failed" ∧ sampleFailedJob.error = some "boom" ∧
    sampleFailedJob.result = none :=
  ⟨ReachableJob.failedAtContext "q" "ctx" [] 0 "boom", rfl, by decide, rfl, rfl⟩

/-- C2 counterexample: a reachable job that reached the failure terminal
state has no eviction timer registered. -/
theorem failed_job_has_no_eviction_timer :
    ReachableJob sampleFailedJob ∧ sampleFailedJob.status = "error" ∧
    sampleFailedJob.error = some "boom" ∧ sampleFailedJob.evictionTimer = none :=
  ⟨ReachableJob.failedAtContext "q" "ctx" [] 0 "boom", rfl, rfl, rfl⟩

/-- C2 amended: across reachable job states, the one-hour eviction timer
(60 * 60 * 1000 ms) is registered exactly on successful completion;
failed jobs are never scheduled for eviction. -/
theorem eviction_scheduled_iff_completed (j : Job) (h : ReachableJob j) :
    j.evictionTimer = some 3600000 ↔ j.status = "completed" := by
  cases h <;> simp [mkJob, stepStart, stepEmbedPhase, stepComplete, stepFail]

/-- Witness for the amended C2 at a concrete completed job. -/
theorem eviction_scheduled_iff_completed_witness :
    (stepComplete (stepEmbedPhase (stepStart (mkJob "q" "c" [] 0)))
      ⟨"a", none, none⟩ 5).evictionTimer = some 3600000 :=
  (eviction_scheduled_iff_completed _
    (ReachableJob.completed "q" "c" [] 0 ⟨"a", none, none⟩ 5)).mpr rfl

/-- C3 counterexample: for a job failed by the language-model stage with
recorded error `LLM down`, neither the status response nor the result
response mentions that message in any field. -/
theorem recorded_error_absent_from_responses :
    ReachableJob sampleLLMFailedJob ∧
    sampleLLMFailedJob.error = some "LLM down" ∧
    respMentions (statusHandler [("id1", sampleLLMFailedJob)] "thehopper" "id1")
      "LLM down" = false ∧
    respMentions (resultHandler [("id1", sampleLLMFailedJob)] "thehopper" "id1")
      "LLM down" = false :=
  ⟨ReachableJob.failedAtGenerate "q" "ctx" [] 0 "LLM down", rfl, by decide, by decide⟩

/-- C3 amended: a failed job keeps the thrown message in the store, but
the status lookup answers with the generic stage message and the result
lookup answers 202 with a generic error; the recorded message appears in
neither response. -/
theorem failed_job_responses_generic (store : Store) (rid m : String) (j : Job)
    (hre : ReachableJob j) (herr : j.error = some m) (hlook : store.lookup rid = some j) :
    j.status = "error" ∧
    statusHandler store "thehopper" rid =
      { statusCode := 200, success := true, status := some "error",
        progress := some (j.progress.getD 0), message := some "Processing failed" } ∧
    resultHandler store "thehopper" rid =
      { statusCode := 202, success := false,
        error := some "Request not completed yet", status := some "error" } := by
  cases hre <;>
    simp_all [mkJob, stepStart, stepEmbedPhase, stepComplete, stepFail,
      statusHandler, resultHandler]

/-- Witness for the amended C3 at a concrete failed job. -/
theorem failed_job_responses_generic_witness :
    sampleLLMFailedJob.status = "error" ∧
    statusHandler [("id1", sampleLLMFailedJob)] "thehopper" "id1" =
      { statusCode := 200, success := true, status := some "error",
        progress := some (sampleLLMFailedJob.progress.getD 0),
        message := some "Processing failed" } ∧
    resultHandler [("id1", sampleLLMFailedJob)] "thehopper" "id1" =
      { statusCode := 202, success := false,
        error := some "Request not completed yet", status := some "error" } :=
  failed_job_responses_generic [("id1", sampleLLMFailedJob)] "id1" "LLM down"
    sampleLLMFailedJob (ReachableJob.failedAtGenerate "q" "ctx" [] 0 "LLM down")
    rfl (by decide)

/-- With equal-length inputs, `cosineSimilarity` always returns a score
(one of its two `.ok` branches). -/
theorem cosineSimilarity_ok (fsqrt : ℚ → ℚ) (a b : List ℚ) (h : a.length = b.length) :
    ∃ q, cosineSimilarity fsqrt a b = .ok q := by
  simp only [cosineSimilarity, h, ne_eq, not_true_eq_false, if_false, ite_not]
  split <;> exact ⟨_, rfl⟩

/-- The embedding used for a document has the model dimension, whether
cached or freshly computed. -/
theorem docEmbedding_length (embed : List Char → List ℚ) (d : Nat) (c : Chunk)
    (hq : ∀ s, (embed s).length = d)
    (hc : ∀ e, c.embedding = some e → e.length = d) :
    (docEmbedding embed c).length = d := by
  unfold docEmbedding
  cases h : c.embedding with
  | none => simp [hq]
  | some e => simp [hc e h]

/-- If every element maps to a success, the sequenced list is a success
of the same length. -/
theorem exceptList_map_ok {α : Type} (f : α → Except String ℚ) (l : List α)
    (h : ∀ x ∈ l, ∃ q, f x = .ok q) :
    ∃ out, exceptList (l.map f) = .ok out ∧ out.length = l.length := by
  induction l with
  | nil => exact ⟨[], rfl, rfl⟩
  | cons a t ih =>
    obtain ⟨q, hq⟩ := h a (List.mem_cons_self a t)
    obtain ⟨out, ho, hl⟩ := ih (fun x hx => h x (List.mem_cons_of_mem a hx))
    refine ⟨q :: out, ?_, by simp [hl]⟩
    simp [exceptList, hq, ho, Except.map]

/-- Under a fixed embedding dimension, `findSimilar` succeeds and its
result has the exact shape of the source pipeline: stable sort of the
scored, enumerated documents, then `slice(0, k)`. -/
theorem findSimilar_ok_shape (fsqrt : ℚ → ℚ) (embed : List Char → List ℚ)
    (query : List Char) (documents : List Chunk) (k : Int) (d : Nat)
    (hq : ∀ s, (embed s).length = d)
    (hc : ∀ c ∈ documents, ∀ e, c.embedding = some e → e.length = d) :
    ∃ scores,
      exceptList ((documents.map (docEmbedding embed)).map
        (cosineSimilarity fsqrt (embed query))) = .ok scores ∧
      scores.length = documents.length ∧
      findSimilar fsqrt embed query documents k = .ok
        (jsSliceTo k (sortByScoreDesc
          ((scores.zip (documents.map (cacheEmbedding embed))).enum.map
            fun p => { index := p.1, score := p.2.1, document := p.2.2 })),
         documents.map (cacheEmbedding embed)) := by
  obtain ⟨scores, ho, hl⟩ := exceptList_map_ok (cosineSimilarity fsqrt (embed query))
    (documents.map (docEmbedding embed)) (fun x hx => by
      obtain ⟨c, hcmem, rfl⟩ := List.mem_map.mp hx
      exact cosineSimilarity_ok fsqrt _ _
        (by rw [hq, docEmbedding_length embed d c hq (hc c hcmem)]))
  exact ⟨scores, ho, by simpa using hl, by simp only [findSimilar]; rw [ho]⟩

/-- `insertScore` adds exactly one element. -/
theorem insertScore_length (x : SimResult) (l : List SimResult) :
    (insertScore x l).length = l.length + 1 := by
  induction l with
  | nil => rfl
  | cons y ys ih => simp only [insertScore]; split <;> simp [ih]

/-- The stable sort preserves length. -/
theorem sortByScoreDesc_length (l : List SimResult) :
    (sortByScoreDesc l).length = l.length := by
  induction l with
  | nil => rfl
  | cons x xs ih => simp [sortByScoreDesc, insertScore_length, ih]

/-- Length of `slice(0, k)` under both signs of `k`. -/
theorem jsSliceTo_length {α : Type} (k : Int) (l : List α) :
    (jsSliceTo k l).length =
      if 0 ≤ k then min k.toNat l.length else ((l.length : Int) + k).toNat := by
  unfold jsSliceTo
  by_cases hk : k < 0
  · rw [if_pos hk, if_neg (by omega)]
    simp only [List.length_take]
    omega
  · rw [if_neg hk, if_pos (by omega)]
    simp [List.length_take]

/-- C4 amended: `findSimilar` succeeds for any integer `k`, and the
result length follows the semantics of `Array.prototype.slice(0, k)`:
`min(k, chunks.length)` for `k ≥ 0`, but `max(chunks.length + k, 0)`
for negative `k` (a negative end index counts from the end; it is not
clamped to zero results). -/
theorem findSimilar_result_length (fsqrt : ℚ → ℚ) (embed : List Char → List ℚ)
    (query : List Char) (documents : List Chunk) (k : Int) (d : Nat)
    (hq : ∀ s, (embed s).length = d)
    (hc : ∀ c ∈ documents, ∀ e, c.embedding = some e → e.length = d) :
    ∃ res docs, findSimilar fsqrt embed query documents k = .ok (res, docs) ∧
      res.length = if 0 ≤ k then min k.toNat documents.length
        else ((documents.length : Int) + k).toNat := by
  obtain ⟨scores, ho, hl, hfs⟩ :=
    findSimilar_ok_shape fsqrt embed query documents k d hq hc
  refine ⟨_, _, hfs, ?_⟩
  rw [jsSliceTo_length, sortByScoreDesc_length]
  simp [hl]

/-- C4 counterexample: with two documents and `k = -1`, `findSimilar`
returns one result, whereas clamping `k` to `[0, chunks.length]` would
require `min(max(-1, 0), 2) = 0` results. -/
theorem findSimilar_negative_k_not_clamped :
    (Except.toOption (findSimilar (fun _ => 0) (fun _ => [(0 : ℚ)]) ['q']
      [⟨['a'], 0, 0, 1, none⟩, ⟨['b'], 1, 0, 1, none⟩] (-1))).map
      (fun p => p.1.length) = some 1 ∧
    min (max (-1 : Int) 0) 2 = 0 ∧ (1 : Nat) ≠ 0 := by
  refine ⟨by decide, by decide, by decide⟩

/-- Witness for the amended C4 at a concrete negative `k`. -/
theorem findSimilar_result_length_witness :
    ∃ res docs, findSimilar (fun _ => 0) (fun _ => [(0 : ℚ)]) ['q']
      [⟨['a'], 0, 0, 1, none⟩, ⟨['b'], 1, 0, 1, none⟩] (-1) = .ok (res, docs) ∧
      res.length = if (0 : Int) ≤ -1 then min (-1 : Int).toNat 2
        else ((2 : Int) + -1).toNat :=
  findSimilar_result_length (fun _ => 0) (fun _ => [(0 : ℚ)]) ['q']
    [⟨['a'], 0, 0, 1, none⟩, ⟨['b'], 1, 0, 1, none⟩] (-1) 1
    (fun _ => rfl) (by
      intro c hcm e he
      have : c.embedding = none := by
        rcases hcm with _ | ⟨_, _ | ⟨_, h⟩⟩ <;> first | rfl | cases h
      rw [this] at he
      cases he)

/-- Membership in an insertion step. -/
theorem mem_insertScore {x z : SimResult} :
    ∀ {l : List SimResult}, z ∈ insertScore x l ↔ z = x ∨ z ∈ l := by
  intro l
  induction l with
  | nil => simp [insertScore]
  | cons y ys ih =>
    simp only [insertScore]
    split
    · simp [List.mem_cons]
    · simp [List.mem_cons, ih]
      tauto

/-- Membership is preserved by the stable sort. -/
theorem mem_sortByScoreDesc {z : SimResult} :
    ∀ {l : List SimResult}, z ∈ sortByScoreDesc l ↔ z ∈ l := by
  intro l
  induction l with
  | nil => simp [sortByScoreDesc]
  | cons x xs ih => simp [sortByScoreDesc, mem_insertScore, ih]

/-- Inserting an element whose original position precedes everything in
an ordered list keeps the list ordered: it lands before the first
element with a not-better score, so ties keep original order. -/
theorem pairwise_insertScore {x : SimResult} :
    ∀ {l : List SimResult}, l.Pairwise simOrder → (∀ y ∈ l, x.index < y.index) →
      (insertScore x l).Pairwise simOrder := by
  intro l
  induction l with
  | nil => intro _ _; exact List.pairwise_singleton _ _
  | cons y ys ih =>
    intro hl hx
    obtain ⟨hy, hys⟩ := List.pairwise_cons.mp hl
    by_cases hcmp : y.score ≤ x.score
    · simp only [insertScore, if_pos hcmp]
      refine List.pairwise_cons.mpr ⟨?_, hl⟩
      intro z hz
      rcases List.mem_cons.mp hz with rfl | hz'
      · exact ⟨hcmp, fun _ => hx z (List.mem_cons_self _ _)⟩
      · exact ⟨le_trans (hy z hz').1 hcmp, fun _ => hx z (List.mem_cons_of_mem _ hz')⟩
    · simp only [insertScore, if_neg hcmp]
      have hxy : x.score < y.score := lt_of_not_le hcmp
      refine List.pairwise_cons.mpr
        ⟨?_, ih hys (fun z hz => hx z (List.mem_cons_of_mem _ hz))⟩
      intro z hz
      rcases mem_insertScore.mp hz with rfl | hz'
      · exact ⟨le_of_lt hxy, fun he => absurd he.symm (ne_of_lt hxy)⟩
      · exact hy z hz'

/-- Sorting a list whose elements carry strictly increasing original
positions yields the stable descending order. -/
theorem pairwise_sortByScoreDesc :
    ∀ {l : List SimResult}, l.Pairwise (fun a b => a.index < b.index) →
      (sortByScoreDesc l).Pairwise simOrder := by
  intro l
  induction l with
  | nil => intro _; exact List.Pairwise.nil
  | cons x xs ih =>
    intro h
    obtain ⟨hx, hxs⟩ := List.pairwise_cons.mp h
    simp only [sortByScoreDesc]
    exact pairwise_insertScore (ih hxs) (fun y hy => hx y (mem_sortByScoreDesc.mp hy))

/-- First components of `enumFrom` are bounded below by the start. -/
theorem fst_le_of_mem_enumFrom {α : Type} {p : Nat × α} :
    ∀ {l : List α} {n : Nat}, p ∈ List.enumFrom n l → n ≤ p.1 := by
  intro l
  induction l with
  | nil => intro n h; cases h
  | cons x xs ih =>
    intro n h
    rcases List.mem_cons.mp h with rfl | h'
    · exact Nat.le_refl _
    · exact Nat.le_of_succ_le (ih h')

/-- First components of `enumFrom` are strictly increasing. -/
theorem pairwise_fst_lt_enumFrom {α : Type} (l : List α) :
    ∀ n, (List.enumFrom n l).Pairwise (fun a b => a.1 < b.1) := by
  induction l with
  | nil => intro _; exact List.Pairwise.nil
  | cons x xs ih =>
    intro n
    refine List.pairwise_cons.mpr ⟨?_, ih (n + 1)⟩
    intro p hp
    exact Nat.lt_of_succ_le (fst_le_of_mem_enumFrom hp)

/-- The decorated similarity entries carry strictly increasing original
positions. -/
theorem pairwise_index_sims (scores : List ℚ) (docs : List Chunk) :
    ((scores.zip docs).enum.map
      (fun p => ({ index := p.1, score := p.2.1, document := p.2.2 } : SimResult))).Pairwise
      (fun a b => a.index < b.index) :=
  List.Pairwise.map _ (fun _ _ h => h) (pairwise_fst_lt_enumFrom _ 0)

/-- `slice(0, k)` yields a sublist in both sign cases of `k`. -/
theorem jsSliceTo_sublist {α : Type} (k : Int) (l : List α) :
    (jsSliceTo k l).Sublist l := by
  unfold jsSliceTo
  split <;> exact List.take_sublist _ _

/-- Re-running `findSimilar` on the document array mutated by a previous
run (all embeddings cached) computes exactly the same result. -/
theorem findSimilar_cached (fsqrt : ℚ → ℚ) (embed : List Char → List ℚ)
    (query : List Char) (documents : List Chunk) (k : Int) :
    findSimilar fsqrt embed query (documents.map (cacheEmbedding embed)) k =
      findSimilar fsqrt embed query documents k := by
  have h1 : List.map (docEmbedding embed ∘ cacheEmbedding embed) documents =
      List.map (docEmbedding embed) documents := by
    simp [Function.comp, docEmbedding, cacheEmbedding]
  have h2 : List.map (cacheEmbedding embed ∘ cacheEmbedding embed) documents =
      List.map (cacheEmbedding embed) documents := by
    simp [Function.comp, cacheEmbedding, docEmbedding]
  simp only [findSimilar, List.map_map, h1, h2]

/-- C5: `findSimilar` returns at most `k` results, ordered by
non-increasing score with ties in original chunk order (stable sort),
and re-invocation on the unchanged (cache-mutated) inputs returns the
same sequence. -/
theorem findSimilar_sorted_stable_idempotent (fsqrt : ℚ → ℚ)
    (embed : List Char → List ℚ) (query : List Char) (documents : List Chunk)
    (k : Int) (d : Nat)
    (hq : ∀ s, (embed s).length = d)
    (hc : ∀ c ∈ documents, ∀ e, c.embedding = some e → e.length = d)
    (hk : 0 ≤ k) :
    ∃ res docs, findSimilar fsqrt embed query documents k = .ok (res, docs) ∧
      res.length ≤ k.toNat ∧
      res.Pairwise simOrder ∧
      findSimilar fsqrt embed query docs k = .ok (res, docs) := by
  obtain ⟨scores, ho, hl, hfs⟩ :=
    findSimilar_ok_shape fsqrt embed query documents k d hq hc
  refine ⟨_, _, hfs, ?_, ?_, ?_⟩
  · rw [jsSliceTo_length, if_pos hk]
    exact min_le_left _ _
  · exact List.Pairwise.sublist (jsSliceTo_sublist _ _)
      (pairwise_sortByScoreDesc (pairwise_index_sims _ _))
  · rw [findSimilar_cached]
    exact hfs

/-- Witness for C5 at a concrete two-document input with k = 2. -/
theorem findSimilar_sorted_stable_idempotent_witness :
    ∃ res docs, findSimilar (fun _ => 0) (fun _ => [(0 : ℚ)]) ['q']
      [⟨['a'], 0, 0, 1, none⟩, ⟨['b'], 1, 0, 1, none⟩] 2 = .ok (res, docs) ∧
      res.length ≤ (2 : Int).toNat ∧
      res.Pairwise simOrder ∧
      findSimilar (fun _ => 0) (fun _ => [(0 : ℚ)]) ['q'] docs 2 = .ok (res, docs) :=
  findSimilar_sorted_stable_idempotent (fun _ => 0) (fun _ => [(0 : ℚ)]) ['q']
    [⟨['a'], 0, 0, 1, none⟩, ⟨['b'], 1, 0, 1, none⟩] 2 1
    (fun _ => rfl)
    (by
      intro c hcm e he
      have : c.embedding = none := by
        rcases hcm with _ | ⟨_, _ | ⟨_, h⟩⟩ <;> first | rfl | cases h
      rw [this] at he
      cases he)
    (by decide)

/-- A nonempty list is not `isEmpty`. -/
theorem isEmpty_false_of_ne_nil {α : Type} {l : List α} (h : l ≠ []) :
    l.isEmpty = false := by
  cases l
  · exact absurd rfl h
  · rfl

/-- Anything inside the current chunk stays inside some emitted chunk:
the current chunk only grows at the end, and is flushed (with a closing
period) before being truncated for overlap. -/
theorem splitLoop_keeps_infix (text : List Char) (cs ov : Nat) :
    ∀ (sents : List (List Char)) (cc : List Char) (idx : Nat) (t : List Char),
      t <:+: cc → t ≠ [] → ∃ c ∈ splitLoop text cs ov sents cc idx, t <:+: c.text := by
  intro sents
  induction sents with
  | nil =>
    intro cc idx t hinf hne
    have hcc : cc ≠ [] := by
      rintro rfl
      exact hne (List.sublist_nil.mp hinf.sublist)
    simp only [splitLoop]
    rw [if_neg (by simp [isEmpty_false_of_ne_nil hcc])]
    exact ⟨mkLastChunk text cc idx, List.mem_singleton.mpr rfl,
      hinf.trans (List.prefix_append cc ['.']).isInfix⟩
  | cons s rest ih =>
    intro cc idx t hinf hne
    have hcc : cc ≠ [] := by
      rintro rfl
      exact hne (List.sublist_nil.mp hinf.sublist)
    simp only [splitLoop]
    by_cases h1 : cc.length + (jsTrim s).length + 1 ≤ cs
    · rw [if_pos h1, if_neg (by simp [isEmpty_false_of_ne_nil hcc])]
      exact ih _ idx t (hinf.trans (List.prefix_append cc _).isInfix) hne
    · rw [if_neg h1, if_neg (by simp [isEmpty_false_of_ne_nil hcc])]
      exact ⟨mkChunk text cc idx, List.mem_cons_self _ _,
        hinf.trans (List.prefix_append cc ['.']).isInfix⟩

/-- Every remaining sentence ends up, whole, inside some emitted chunk. -/
theorem splitLoop_covers (text : List Char) (cs ov : Nat) :
    ∀ (sents : List (List Char)) (cc : List Char) (idx : Nat),
      (∀ u ∈ sents, jsTrim u ≠ []) →
      ∀ s ∈ sents, ∃ c ∈ splitLoop text cs ov sents cc idx, jsTrim s <:+: c.text := by
  intro sents
  induction sents with
  | nil =>
    intro cc idx _ s hs
    cases hs
  | cons s0 rest ih =>
    intro cc idx hne s hs
    rcases List.mem_cons.mp hs with rfl | hs'
    · have ht : jsTrim s ≠ [] := hne s (List.mem_cons_self _ _)
      simp only [splitLoop]
      by_cases h1 : cc.length + (jsTrim s).length + 1 ≤ cs
      · rw [if_pos h1]
        refine splitLoop_keeps_infix text cs ov rest _ idx (jsTrim s) ?_ ht
        split
        · exact List.infix_refl _
        · exact ⟨cc ++ ['.', ' '], [], by simp⟩
      · rw [if_neg h1]
        by_cases hcc : cc = []
        · subst hcc
          rw [if_pos List.isEmpty_nil]
          exact splitLoop_keeps_infix text cs ov rest _ idx (jsTrim s)
            (List.infix_refl _) ht
        · rw [if_neg (by simp [isEmpty_false_of_ne_nil hcc])]
          have hsfx : jsTrim s <:+:
              (if 0 < ov ∧ ov < cc.length then
                cc.drop (cc.length - ov) ++ '.' :: ' ' :: jsTrim s
              else jsTrim s) := by
            split
            · exact ⟨cc.drop (cc.length - ov) ++ ['.', ' '], [], by simp⟩
            · exact List.infix_refl _
          obtain ⟨c, hcm, hinf⟩ := splitLoop_keeps_infix text cs ov rest _ (idx + 1)
            (jsTrim s) hsfx ht
          exact ⟨c, List.mem_cons_of_mem _ hcm, hinf⟩
    · have hne' : ∀ u ∈ rest, jsTrim u ≠ [] :=
        fun u hu => hne u (List.mem_cons_of_mem _ hu)
      simp only [splitLoop]
      by_cases h1 : cc.length + (jsTrim s0).length + 1 ≤ cs
      · rw [if_pos h1]
        exact ih _ idx hne' s hs'
      · rw [if_neg h1]
        by_cases hcc : cc = []
        · subst hcc
          rw [if_pos List.isEmpty_nil]
          exact ih _ idx hne' s hs'
        · rw [if_neg (by simp [isEmpty_false_of_ne_nil hcc])]
          obtain ⟨c, hcm, hinf⟩ := ih _ (idx + 1) hne' s hs'
          exact ⟨c, List.mem_cons_of_mem _ hcm, hinf⟩

/-- Members of the sentence list have a nonempty trim (they survived the
filter). -/
theorem jsTrim_ne_nil_of_mem_sentencesOf {text s : List Char}
    (hs : s ∈ sentencesOf text) : jsTrim s ≠ [] := by
  have h := (List.mem_filter.mp hs).2
  have hpos : 0 < (jsTrim s).length := of_decide_eq_true h
  exact List.ne_nil_of_length_pos hpos

/-- C7: sentences are atomic in the chunker: the trimmed form of every
sentence of the input occurs whole inside some chunk, and an input that
is a single sentence longer than `maxChunkSize` is emitted as exactly
one chunk holding that whole sentence (plus the closing period). -/
theorem splitText_sentences_atomic (text : List Char) (cs ov : Nat) :
    (∀ s ∈ sentencesOf text, ∃ c ∈ splitText text cs ov, jsTrim s <:+: c.text) ∧
    (∀ s, sentencesOf text = [s] → cs < (jsTrim s).length →
      (splitText text cs ov).map Chunk.text = [jsTrim s ++ ['.']]) := by
  constructor
  · intro s hs
    exact splitLoop_covers text cs ov (sentencesOf text) [] 0
      (fun u hu => jsTrim_ne_nil_of_mem_sentencesOf hu) s hs
  · intro s hsing hlong
    have hmem : s ∈ sentencesOf text := by
      rw [hsing]
      exact List.mem_singleton.mpr rfl
    have ht : jsTrim s ≠ [] := jsTrim_ne_nil_of_mem_sentencesOf hmem
    unfold splitText
    rw [hsing]
    simp only [splitLoop]
    rw [if_neg (by simp; omega), if_pos List.isEmpty_nil,
      if_neg (by simp [isEmpty_false_of_ne_nil ht])]
    simp [mkLastChunk]

/-- Witness for C7: a two-sentence input for the first part, and a
single long sentence with a small `maxChunkSize` for the second. -/
theorem splitText_sentences_atomic_witness :
    (∃ c ∈ splitText ('H' :: 'i' :: '.' :: ' ' :: 'B' :: 'y' :: 'e' :: []) 1000 200,
      jsTrim ('H' :: 'i' :: []) <:+: c.text) ∧
    (splitText ('H' :: 'i' :: ' ' :: 'y' :: 'o' :: 'u' :: []) 3 1).map Chunk.text =
      [jsTrim ('H' :: 'i' :: ' ' :: 'y' :: 'o' :: 'u' :: []) ++ ['.']] :=
  ⟨(splitText_sentences_atomic ('H' :: 'i' :: '.' :: ' ' :: 'B' :: 'y' :: 'e' :: [])
      1000 200).1 ('H' :: 'i' :: []) (by decide),
   (splitText_sentences_atomic ('H' :: 'i' :: ' ' :: 'y' :: 'o' :: 'u' :: []) 3 1).2
      ('H' :: 'i' :: ' ' :: 'y' :: 'o' :: 'u' :: []) (by decide) (by decide)⟩

end Grasphoffer
